import Mathlib

/-!
Shallow embedding of the scan-server Go program (a SANE scanner CLI client).

Pure helpers of the source (`pathToEncoder`, `findOption`, the value-coercion
switch inside `parseOptions`) are translated directly.  Effectful code
(`parseOptions`, `showOptions`, `doScan`, `openDevice`, `listDevices`) is
embedded by threading an explicit device state `σ` through a record of the
device-access primitives (`World`) and by returning a trace of the externally
visible calls together with an outcome that distinguishes a normal return,
a returned Go `error`, and a Go `panic` (process abort).
-/

set_option autoImplicit false

/-- The encoding strategies selectable by `pathToEncoder` (the Go code returns
`png.Encode`, a `jpeg.Encode` wrapper, or a `tiff.Encode` wrapper). -/
inductive EncodeFunc
  | png
  | jpeg
  | tiff
deriving DecidableEq, Repr

/-- Reverse scan used by `goExt`: the input is the reversed character list of
the path; stop at a path separator, return the suffix from the last dot. -/
def extScan : List Char → List Char → Option (List Char)
  | [], _ => none
  | c :: rest, acc =>
    if c = '/' then none
    else if c = '.' then some ('.' :: acc)
    else extScan rest (c :: acc)

/-- Go `filepath.Ext`: the suffix of the last path element beginning at its
final dot (dot included); empty when the last element has no dot. -/
def goExt (path : String) : String :=
  match extScan path.toList.reverse [] with
  | some cs => String.mk cs
  | none => ""

/-- Go `strings.ToLower`, modelled for ASCII letters (all extensions the
program compares are ASCII). -/
def strLower (s : String) : String := String.mk (s.toList.map Char.toLower)

/-- The `switch ext` body of `pathToEncoder`: the already-lowercased
extension selects the strategy; any other extension is an error. -/
def encoderForExt (ext : String) : Except String EncodeFunc :=
  if ext = ".png" then .ok .png
  else if ext = ".jpg" then .ok .jpeg
  else if ext = ".jpeg" then .ok .jpeg
  else if ext = ".tif" then .ok .tiff
  else if ext = ".tiff" then .ok .tiff
  else .error "unrecognized extension"

/-- Source `pathToEncoder`: lowercase the extension of the path and
switch on it. -/
def pathToEncoder (path : String) : Except String EncodeFunc :=
  encoderForExt (strLower (goExt path))

/-- The option value types of the SANE library (`sane.TypeBool` …). -/
inductive SaneType
  | tBool
  | tInt
  | tFloat
  | tString
  | tButton
  | tGroup
deriving DecidableEq, Repr

/-- The display units of the SANE library (`sane.UnitPixel` …). -/
inductive SaneUnit
  | uNone
  | uPixel
  | uBit
  | uMm
  | uDpi
  | uPercent
  | uUsec
deriving DecidableEq, Repr

/-- A dynamically typed SANE option value (`interface\x7b\x7d` in Go):
one of the four concrete value types, the automatic sentinel `sane.Auto`,
or Go's `nil` (the value variable when no switch case matched). -/
inductive SaneValue
  | vBool (b : Bool)
  | vInt (n : Int)
  | vFloat (q : Rat)
  | vString (s : String)
  | vAuto
  | vNil
deriving DecidableEq, Repr

/-- A SANE range constraint (`sane.Range`): dynamically typed bounds and
quantization step. -/
structure SaneRange where
  min : SaneValue := .vNil
  max : SaneValue := .vNil
  quant : SaneValue := .vNil
deriving DecidableEq, Repr

/-- A SANE option descriptor (`sane.Option`).  The Go field `Type` is named
`typ` here (`Type` is a sort in Lean). -/
structure SaneOption where
  name : String := ""
  group : String := ""
  typ : SaneType := .tBool
  unit : SaneUnit := .uNone
  desc : String := ""
  isActive : Bool := false
  isSettable : Bool := false
  isAutomatic : Bool := false
  constrRange : Option SaneRange := none
  constrSet : List SaneValue := []
deriving DecidableEq, Repr

/-- A device descriptor as returned by `sane.Devices` (`sane.Device`). -/
structure DevInfo where
  name : String
  vendor : String
  model : String
  devType : String
deriving DecidableEq, Repr

/-- The repository's own request struct, named `Option` in the source
(renamed here because `Option` is taken in Lean).  The field defaults are
Go's zero values, which is what an absent field of a Go struct literal
holds.  The Go field `Type` is named `typ`. -/
structure OptionReq where
  name : String := ""
  typ : Int := 0
  bool : Bool := false
  int : Int := 0
  float : Rat := 0
  string : String := ""
  auto : Bool := false
deriving DecidableEq, Repr

/-- The device-access primitives the program calls, over an abstract device
state `σ`: `sane.Open`, `sane.Devices`, `Conn.Options`, `Conn.GetOption`,
`Conn.SetOption` and `Conn.ReadImage`.  `setOpt` may change the device state
(a write can toggle activation or constraints of other options); the other
calls are reads. -/
structure World (σ : Type) where
  openDev : String → Except String σ
  devices : Except String (List DevInfo)
  options : σ → List SaneOption
  getOpt : σ → String → Except String SaneValue
  setOpt : σ → String → SaneValue → Except String σ
  readImage : σ → Except String Unit

/-- One attempted `SetOption` call: the name and value passed to the device
and whether the device accepted it. -/
structure WriteEvent where
  name : String
  value : SaneValue
  ok : Bool
deriving DecidableEq, Repr

/-- Externally visible calls of the pipeline, in execution order. -/
inductive Event
  | openCall (name : String)
  | enumerateCall
  | createFile (name : String)
  | listOptionsCall
  | getOptCall (name : String)
  | setOpt (e : WriteEvent)
  | readImageCall (ok : Bool)
  | encodeCall (ok : Bool)
  | closeStream (ok : Bool)
  | closeDev
deriving DecidableEq, Repr

/-- How a call to `parseOptions` ends: normal return, a returned `error`
value, or a Go `panic` (the source panics when `findOption` fails). -/
inductive POutcome
  | ok
  | err (msg : String)
  | panicked (msg : String)
deriving DecidableEq, Repr

/-- How a pipeline stage ends: normal return or a Go `panic`. -/
inductive Outcome
  | ok
  | panicked (msg : String)
deriving DecidableEq, Repr

/-- Result of `parseOptions`: the `SetOption` attempts issued, the final
device state, and the outcome. -/
structure NegotiationResult (σ : Type) where
  trace : List WriteEvent
  state : σ
  out : POutcome
deriving Repr

/-- Source `findOption`: first catalog entry with the given name,
or the error `no such option`. -/
def findOption : List SaneOption → String → Except String SaneOption
  | [], _ => .error "no such option"
  | o :: rest, n => if o.name = n then .ok o else findOption rest n

/-- The value-selection switch of `parseOptions`: if the option is automatic
and the request asks for automatic, the sentinel `sane.Auto`; otherwise the
request field selected by the option's declared type (`nil` when the type is
none of the four value types). -/
def coerceValue (o : SaneOption) (a : OptionReq) : SaneValue :=
  if o.isAutomatic && a.auto then .vAuto
  else
    match o.typ with
    | .tBool => .vBool a.bool
    | .tInt => .vInt a.int
    | .tFloat => .vFloat a.float
    | .tString => .vString a.string
    | .tButton => .vNil
    | .tGroup => .vNil

/-- The explicit-value switch alone (no automatic branch): the request field
selected by the option's declared type. -/
def typeField (o : SaneOption) (a : OptionReq) : SaneValue :=
  match o.typ with
  | .tBool => .vBool a.bool
  | .tInt => .vInt a.int
  | .tFloat => .vFloat a.float
  | .tString => .vString a.string
  | .tButton => .vNil
  | .tGroup => .vNil

variable {σ : Type}

/-- Source `parseOptions`: for each request in caller order,
re-read the catalog (`c.Options()`), look the name up with `findOption`
(panicking on failure, as the source does), select the value, and issue
`c.SetOption`; a device rejection is returned immediately and the remaining
requests are not attempted. -/
def parseOptions (w : World σ) : σ → List OptionReq → NegotiationResult σ
  | s, [] => ⟨[], s, .ok⟩
  | s, a :: rest =>
    match findOption (w.options s) a.name with
    | .error e => ⟨[], s, .panicked e⟩
    | .ok o =>
      let v := coerceValue o a
      match w.setOpt s o.name v with
      | .error e => ⟨[⟨o.name, v, false⟩], s, .err e⟩
      | .ok s' =>
        let r := parseOptions w s' rest
        ⟨⟨o.name, v, true⟩ :: r.trace, r.state, r.out⟩

/-- Go `strings.HasPrefix` on character lists. -/
def charsLeads : List Char → List Char → Bool
  | [], _ => true
  | _ :: _, [] => false
  | a :: as, b :: bs => a == b && charsLeads as bs

/-- Go `strings.Contains` on character lists: the needle occurs inside the
haystack. -/
def charsContains : List Char → List Char → Bool
  | [], needle => needle.isEmpty
  | h :: t, needle => charsLeads needle (h :: t) || charsContains t needle

/-- Go `strings.Contains (s, sub)`. -/
def goContains (s sub : String) : Bool := charsContains s.toList sub.toList

/-- The substring-match loop of `openDevice`: the first enumerated device
whose name contains the identifier is opened (whatever that open returns);
no later device is tried; if none matches, the `no device named` error. -/
def matchLoop (w : World σ) (name : String) : List DevInfo → List Event × Except String σ
  | [] => ([], .error ("no device named " ++ name))
  | d :: rest =>
    if goContains d.name name then ([.openCall d.name], w.openDev d.name)
    else matchLoop w name rest

/-- Source `openDevice`: try the exact open first; on failure
enumerate all devices (propagating an enumeration error) and run the
substring-match loop. -/
def openDevice (w : World σ) (name : String) : List Event × Except String σ :=
  match w.openDev name with
  | .ok c => ([.openCall name], .ok c)
  | .error _ =>
    match w.devices with
    | .error e2 => ([.openCall name, .enumerateCall], .error e2)
    | .ok devs =>
      let r := matchLoop w name devs
      ([.openCall name, .enumerateCall] ++ r.1, r.2)

/-- The filtering skeleton of the `showOptions` loop: options whose
`IsSettable` flag is false are skipped (`continue`); the rest are displayed
in device order. -/
def displayedOptions : List SaneOption → List SaneOption
  | [] => []
  | o :: rest => if o.isSettable then o :: displayedOptions rest else displayedOptions rest

/-- The device calls made by `showOptions`: one `Options()` read, then one
`GetOption` per displayed option (its result feeds the display only and its
error is ignored). -/
def showOptionsEvents (w : World σ) (s : σ) : List Event :=
  Event.listOptionsCall :: (displayedOptions (w.options s)).map (fun o => Event.getOptCall o.name)

/-- The request list hard-coded in `doScan`: resolution 600, mode color,
preview false. -/
def doScanArgs : List OptionReq :=
  [{ name := "resolution", int := 600 },
   { name := "mode", string := "color" },
   { name := "preview", bool := false }]

/-- Success or failure of the file-system and codec calls `doScan` makes:
`os.Create`, the selected encode function, and `stream.Close`. -/
structure FsModel where
  createOk : String → Bool
  encodeOk : Bool
  closeOk : Bool

/-- The body of `doScan` between the successful `os.Create` and the deferred
stream close: `showOptions`, `parseOptions` (whose returned error or panic
becomes a panic here), `ReadImage`, then the encode call.  Every failure is
a panic, as in the source. -/
def doScanBody (w : World σ) (fs : FsModel) (s : σ) : List Event × Outcome :=
  let showEvs := showOptionsEvents w s
  let r := parseOptions w s doScanArgs
  let wEvs := r.trace.map Event.setOpt
  match r.out with
  | .err e => (showEvs ++ wEvs, .panicked e)
  | .panicked e => (showEvs ++ wEvs, .panicked e)
  | .ok =>
    match w.readImage r.state with
    | .error e => (showEvs ++ wEvs ++ [Event.readImageCall false], .panicked e)
    | .ok _ =>
      if fs.encodeOk then
        (showEvs ++ wEvs ++ [Event.readImageCall true, Event.encodeCall true], .ok)
      else
        (showEvs ++ wEvs ++ [Event.readImageCall true, Event.encodeCall false], .panicked "encode failed")

/-- Source `doScan`: resolve the encoder (panic on failure, before
any other call), create the destination file (panic on failure), run the
body, then the deferred `stream.Close` (whose failure panics).  The
connection argument is an `Option σ` because `listDevices` ignores the error
of `openDevice` and may pass a nil connection; the first dereference of a
nil connection panics. -/
def doScan (w : World σ) (fs : FsModel) (c : Option σ) (fileName : String) :
    List Event × Outcome :=
  match pathToEncoder fileName with
  | .error e => ([], .panicked e)
  | .ok _ =>
    if fs.createOk fileName then
      let body : List Event × Outcome :=
        match c with
        | none => ([], .panicked "nil pointer dereference")
        | some s => doScanBody w fs s
      let evs := Event.createFile fileName :: body.1 ++ [Event.closeStream fs.closeOk]
      match body.2 with
      | .ok => (evs, if fs.closeOk then .ok else .panicked "close failed")
      | .panicked e => (evs, .panicked (if fs.closeOk then e else "close failed"))
    else ([], .panicked "create failed")

/-- One iteration of the `listDevices` loop: open the device (error ignored),
run `doScan`, and call `c.Close()` only when `doScan` returned normally — a
panic inside `doScan` propagates past the close.  When the open failed the
connection is nil and `doScan` panics at its first dereference. -/
def perDevice (w : World σ) (fs : FsModel) (d : DevInfo) (fileName : String) :
    List Event × Outcome :=
  let o := openDevice w d.name
  match o.2 with
  | .ok c =>
    let r := doScan w fs (some c) fileName
    match r.2 with
    | .ok => (o.1 ++ r.1 ++ [Event.closeDev], .ok)
    | .panicked e => (o.1 ++ r.1, .panicked e)
  | .error _ =>
    let r := doScan w fs (none : Option σ) fileName
    match r.2 with
    | .ok => (o.1 ++ r.1, .panicked "nil pointer dereference")
    | .panicked e => (o.1 ++ r.1, .panicked e)

/-- The device loop of `listDevices`: each device's full pipeline runs in
order; a panic aborts the remaining devices. -/
def devLoop (w : World σ) (fs : FsModel) : List DevInfo → List Event × Outcome
  | [] => ([], .ok)
  | d :: rest =>
    let r := perDevice w fs d "1.jpg"
    match r.2 with
    | .panicked e => (r.1, .panicked e)
    | .ok =>
      let r' := devLoop w fs rest
      (r.1 ++ r'.1, r'.2)

/-- Source `listDevices`: enumerate (error ignored — an enumeration
failure just leaves the device list empty), then run the per-device loop
with the hard-coded destination `1.jpg`. -/
def listDevices (w : World σ) (fs : FsModel) : List Event × Outcome :=
  match w.devices with
  | .error _ => ([Event.enumerateCall], .ok)
  | .ok ds =>
    let r := devLoop w fs ds
    (Event.enumerateCall :: r.1, r.2)

/-- Whether an `Except` is a success. -/
def exceptOk {ε α : Type} : Except ε α → Bool
  | .ok _ => true
  | .error _ => false

/-- Modelled from the spec's validation sentence, for comparison with the
code: a value `v` lies on the admitted grid of a range `[mn, mx]` with
nonzero quantization step `q` exactly when `mn ≤ v ≤ mx` and
`(v - mn) % q = 0`. -/
def onGridB (mn mx q v : Int) : Bool :=
  (mn ≤ v) && (v ≤ mx) && ((v - mn) % q = 0)

/-- Erase the constraint fields of an option, keeping everything negotiation
could consult (name, type, flags). -/
def eraseConstr (o : SaneOption) : SaneOption :=
  { o with constrRange := none, constrSet := [] }

/-- The extensions `pathToEncoder` recognizes, lowercased. -/
def recognizedExt (e : String) : Bool :=
  e = ".png" || e = ".jpg" || e = ".jpeg" || e = ".tif" || e = ".tiff"

/-! ## Helper lemmas -/

theorem findOption_ok_name (opts : List SaneOption) (n : String) (o : SaneOption)
    (h : findOption opts n = .ok o) : o.name = n := by
  induction opts with
  | nil => simp [findOption] at h
  | cons p rest ih =>
    by_cases hp : p.name = n
    · simp only [findOption, hp, if_pos rfl] at h
      obtain rfl : p = o := by injection h
      exact hp
    · simp only [findOption, hp, if_false] at h
      exact ih h

/-! ## Claim theorems -/

/-- C7: encoder resolution is a function of the lowercased file-name
extension alone; `.png` selects PNG, `.jpg`/`.jpeg` select JPEG,
`.tif`/`.tiff` select TIFF, and every other extension (including none,
which `goExt` renders as the empty string) is an `unrecognized extension`
error. -/
theorem pathToEncoder_by_extension (p : String) :
    (∀ q : String, strLower (goExt p) = strLower (goExt q) →
        pathToEncoder p = pathToEncoder q)
    ∧ (pathToEncoder p = .ok .png ↔ strLower (goExt p) = ".png")
    ∧ (pathToEncoder p = .ok .jpeg ↔
        (strLower (goExt p) = ".jpg" ∨ strLower (goExt p) = ".jpeg"))
    ∧ (pathToEncoder p = .ok .tiff ↔
        (strLower (goExt p) = ".tif" ∨ strLower (goExt p) = ".tiff"))
    ∧ ((∃ e, pathToEncoder p = .error e) ↔ recognizedExt (strLower (goExt p)) = false) := by
  refine ⟨fun q h => by simp only [pathToEncoder, h], ?_⟩
  unfold pathToEncoder encoderForExt recognizedExt
  generalize strLower (goExt p) = x
  split_ifs with h1 h2 h3 h4 h5 <;> simp_all

/-- Witness for C7 at concrete paths: `photo.PNG` and `other.png` have the
same lowercased extension, hence the same encoder. -/
theorem pathToEncoder_by_extension_witness :
    pathToEncoder "photo.PNG" = pathToEncoder "other.png" :=
  (pathToEncoder_by_extension "photo.PNG").1 "other.png" (by decide)

/-- C8: when the exact open by the given identifier succeeds, `openDevice`
returns that connection, and the device-enumeration call (`sane.Devices`)
never happens. -/
theorem openDevice_exact_no_enumeration (w : World σ) (name : String) (c : σ)
    (h : w.openDev name = .ok c) :
    openDevice w name = ([Event.openCall name], .ok c)
    ∧ Event.enumerateCall ∉ (openDevice w name).1 := by
  have he : openDevice w name = ([Event.openCall name], .ok c) := by
    simp only [openDevice, h]
  refine ⟨he, ?_⟩
  rw [he]
  simp

/-- Witness for C8 at a concrete world: the exact open of `net:epson`
succeeds, so enumeration is skipped. -/
theorem openDevice_exact_no_enumeration_witness :
    openDevice
      { openDev := fun n => if n = "net:epson" then .ok 7 else .error "fail"
        devices := .error "unreachable"
        options := fun _ => []
        getOpt := fun _ _ => .error "none"
        setOpt := fun s _ _ => .ok s
        readImage := fun _ => .ok () } "net:epson" = ([Event.openCall "net:epson"], .ok 7) :=
  (openDevice_exact_no_enumeration
    { openDev := fun n => if n = "net:epson" then .ok 7 else .error "fail"
      devices := .error "unreachable"
      options := fun _ => []
      getOpt := fun _ _ => .error "none"
      setOpt := fun s _ _ => .ok s
      readImage := fun _ => .ok () } "net:epson" 7 rfl).1

theorem matchLoop_first_match (w : World σ) (name : String) (pre : List DevInfo)
    (d : DevInfo) (post : List DevInfo)
    (hpre : ∀ p ∈ pre, goContains p.name name = false)
    (hd : goContains d.name name = true) :
    matchLoop w name (pre ++ d :: post) = ([Event.openCall d.name], w.openDev d.name) := by
  induction pre with
  | nil => simp [matchLoop, hd]
  | cons p rest ih =>
    have hp : goContains p.name name = false := hpre p (by simp)
    simp only [List.cons_append, matchLoop, hp]
    simp only [Bool.false_eq_true, if_false]
    exact ih (fun q hq => hpre q (by simp [hq]))

/-- C9: when the exact open fails, enumeration succeeds, and the first
enumerated device whose name contains the identifier itself fails to open,
`openDevice` returns that open failure (not the `no device named` error) and
issues no open for any later device, matching or not: the whole call trace
is the exact open, the enumeration, and the single substring-match open. -/
theorem openDevice_first_match_open_failure (w : World σ) (name : String)
    (e1 : String) (pre : List DevInfo) (d : DevInfo) (post : List DevInfo) (e2 : String)
    (hopen : w.openDev name = .error e1)
    (henum : w.devices = .ok (pre ++ d :: post))
    (hpre : ∀ p ∈ pre, goContains p.name name = false)
    (hd : goContains d.name name = true)
    (hfail : w.openDev d.name = .error e2) :
    openDevice w name
      = ([Event.openCall name, Event.enumerateCall, Event.openCall d.name], .error e2) := by
  simp only [openDevice, hopen, henum, matchLoop_first_match w name pre d post hpre hd, hfail]
  rfl

/-- Witness for C9 at a concrete world: identifier `pix` fails to open
exactly, device `epson one` does not match, `pixma one` matches but fails to
open, and `pixma two` (a later match) is never tried. -/
theorem openDevice_first_match_open_failure_witness :
    openDevice
      { openDev := fun n => if n = "pixma one" then .error "busy" else .error "no exact"
        devices := .ok [⟨"epson one", "E", "M", "scanner"⟩,
                        ⟨"pixma one", "C", "M1", "scanner"⟩,
                        ⟨"pixma two", "C", "M2", "scanner"⟩]
        options := fun _ => []
        getOpt := fun _ _ => .error "none"
        setOpt := fun s _ _ => .ok (s : Nat)
        readImage := fun _ => .ok () } "pix"
      = ([Event.openCall "pix", Event.enumerateCall, Event.openCall "pixma one"],
          .error "busy") :=
  openDevice_first_match_open_failure
    { openDev := fun n => if n = "pixma one" then .error "busy" else .error "no exact"
      devices := .ok [⟨"epson one", "E", "M", "scanner"⟩,
                      ⟨"pixma one", "C", "M1", "scanner"⟩,
                      ⟨"pixma two", "C", "M2", "scanner"⟩]
      options := fun _ => []
      getOpt := fun _ _ => .error "none"
      setOpt := fun s _ _ => .ok (s : Nat)
      readImage := fun _ => .ok () } "pix" "no exact"
    [⟨"epson one", "E", "M", "scanner"⟩] ⟨"pixma one", "C", "M1", "scanner"⟩
    [⟨"pixma two", "C", "M2", "scanner"⟩] "busy"
    rfl rfl (by decide) (by decide) rfl

/-- C5: `parseOptions` issues its `SetOption` calls strictly in the
caller-supplied request order: the attempted names are the initial segment
of the request names of the trace's length.  On a normal return every
request was written and accepted.  On a device rejection (`err`) every
earlier attempt was accepted, the rejected attempt is the last event, and
no later request is attempted.  On a panic (unknown option) every attempt
so far was accepted and later requests are not attempted.  The trace holds
one event per attempted request and nothing else — no rollback write
exists, so options already written remain written. -/
theorem parseOptions_order_fail_fast (w : World σ) (s : σ) (args : List OptionReq)
    (tr : List WriteEvent) (s' : σ) (out : POutcome)
    (h : parseOptions w s args = ⟨tr, s', out⟩) :
    tr.map WriteEvent.name = (args.map OptionReq.name).take tr.length
    ∧ tr.length ≤ args.length
    ∧ (out = .ok → tr.length = args.length ∧ ∀ e ∈ tr, e.ok = true)
    ∧ (∀ msg, out = .err msg →
        ∃ pre lastE, tr = pre ++ [lastE] ∧ (∀ e ∈ pre, e.ok = true) ∧ lastE.ok = false)
    ∧ (∀ msg, out = .panicked msg → tr.length < args.length ∧ ∀ e ∈ tr, e.ok = true) := by
  induction args generalizing s tr s' out with
  | nil =>
    simp only [parseOptions] at h
    cases h
    refine ⟨by simp, by simp, ?_, ?_, ?_⟩
    · intro _
      exact ⟨rfl, by simp⟩
    · intro msg hm
      simp at hm
    · intro msg hm
      simp at hm
  | cons a rest ih =>
    rcases hf : findOption (w.options s) a.name with e | o
    · simp only [parseOptions, hf] at h
      cases h
      refine ⟨by simp, by simp, ?_, ?_, ?_⟩
      · intro hk
        simp at hk
      · intro msg hm
        simp at hm
      · intro msg _
        exact ⟨by simp, by simp⟩
    · have hname : o.name = a.name := findOption_ok_name _ _ _ hf
      rcases hs : w.setOpt s o.name (coerceValue o a) with e | s2
      · simp only [parseOptions, hf, hs] at h
        cases h
        refine ⟨by simp [hname], by simp, ?_, ?_, ?_⟩
        · intro hk
          simp at hk
        · intro msg _
          exact ⟨[], ⟨o.name, coerceValue o a, false⟩, by simp⟩
        · intro msg hm
          simp at hm
      · rcases hr : parseOptions w s2 rest with ⟨tr2, st2, out2⟩
        simp only [parseOptions, hf, hs, hr] at h
        cases h
        obtain ⟨ih1, ih2, ih3, ih4, ih5⟩ := ih s2 _ _ _ hr
        refine ⟨?_, ?_, ?_, ?_, ?_⟩
        · simp [List.take_succ_cons, hname, ih1]
        · simpa using Nat.succ_le_succ ih2
        · intro hk
          obtain ⟨hl, ha⟩ := ih3 hk
          refine ⟨by simp [hl], ?_⟩
          intro e he
          rcases List.mem_cons.mp he with rfl | he2
          · rfl
          · exact ha e he2
        · intro msg hm
          obtain ⟨pre2, last2, htr, hpre, hlast⟩ := ih4 msg hm
          refine ⟨⟨o.name, coerceValue o a, true⟩ :: pre2, last2, by simp [htr], ?_, hlast⟩
          intro e he
          rcases List.mem_cons.mp he with rfl | he2
          · rfl
          · exact hpre e he2
        · intro msg hm
          obtain ⟨hl, ha⟩ := ih5 msg hm
          refine ⟨by simpa using Nat.succ_lt_succ hl, ?_⟩
          intro e he
          rcases List.mem_cons.mp he with rfl | he2
          · rfl
          · exact ha e he2

/-- A concrete three-option catalog (the options `doScan` hard-codes). -/
def wCatalog : List SaneOption :=
  [{ name := "resolution", typ := .tInt, isSettable := true, isActive := true },
   { name := "mode", typ := .tString, isSettable := true, isActive := true },
   { name := "preview", typ := .tBool, isSettable := true, isActive := true }]

/-- A concrete device that rejects the `mode` write and accepts the rest. -/
def wNeg : World Nat :=
  { openDev := fun _ => .ok 0
    devices := .ok []
    options := fun _ => wCatalog
    getOpt := fun _ _ => .error "none"
    setOpt := fun s n _ => if n = "mode" then .error "rejected" else .ok s
    readImage := fun _ => .ok () }

/-- Witness for C5 at the concrete device `wNeg`, whose `mode` write is
rejected: the attempted names are an initial segment of the request names
and the attempt count never exceeds the request count. -/
theorem parseOptions_order_fail_fast_witness :
    (parseOptions wNeg 0 doScanArgs).trace.map WriteEvent.name
      = (doScanArgs.map OptionReq.name).take (parseOptions wNeg 0 doScanArgs).trace.length
    ∧ (parseOptions wNeg 0 doScanArgs).trace.length ≤ doScanArgs.length :=
  ⟨(parseOptions_order_fail_fast wNeg 0 doScanArgs _ _ _ rfl).1,
   (parseOptions_order_fail_fast wNeg 0 doScanArgs _ _ _ rfl).2.1⟩

theorem findOption_absent (opts : List SaneOption) (n : String)
    (h : ∀ o ∈ opts, o.name ≠ n) : findOption opts n = .error "no such option" := by
  induction opts with
  | nil => rfl
  | cons p rest ih =>
    have hp : p.name ≠ n := h p (by simp)
    simp only [findOption, hp, if_false]
    exact ih (fun o ho => h o (by simp [ho]))

/-- C10 theorem: a request marked automatic against an option whose
`IsAutomatic` flag is false is not rejected by negotiation; the value
selection falls through to the type switch, and the explicit request field
selected by the option's declared type — not the automatic sentinel — is
what gets written to the device. -/
theorem parseOptions_auto_without_support (w : World σ) (s : σ) (a : OptionReq)
    (rest : List OptionReq) (o : SaneOption)
    (hfind : findOption (w.options s) a.name = .ok o)
    (hauto : o.isAutomatic = false)
    (hreq : a.auto = true)
    (htyp : o.typ = .tBool ∨ o.typ = .tInt ∨ o.typ = .tFloat ∨ o.typ = .tString) :
    coerceValue o a = typeField o a
    ∧ typeField o a ≠ .vAuto
    ∧ (parseOptions w s (a :: rest)).trace.head?
        = some ⟨o.name, typeField o a, exceptOk (w.setOpt s o.name (typeField o a))⟩ := by
  have hcv : coerceValue o a = typeField o a := by
    simp [coerceValue, typeField, hauto]
  refine ⟨hcv, ?_, ?_⟩
  · rcases htyp with h | h | h | h <;> simp [typeField, h]
  · rcases hs : w.setOpt s o.name (typeField o a) with e | s2 <;>
      simp [parseOptions, hfind, hcv, hs, exceptOk]

/-- A non-automatic integer option used in the C10 witness. -/
def brightOpt : SaneOption :=
  { name := "brightness", typ := .tInt, isSettable := true, isActive := true }

/-- A device exposing only `brightOpt` and accepting every write. -/
def wBright : World Unit :=
  { openDev := fun _ => .ok ()
    devices := .ok []
    options := fun _ => [brightOpt]
    getOpt := fun _ _ => .error "none"
    setOpt := fun s _ _ => .ok s
    readImage := fun _ => .ok () }

/-- Witness for C10: the request asks for automatic with no explicit value;
the option is not automatic, so the device receives the integer field's
default 0. -/
theorem parseOptions_auto_without_support_witness :
    (parseOptions wBright () [{ name := "brightness", auto := true }]).trace.head?
      = some ⟨"brightness", SaneValue.vInt 0, true⟩ := by
  have h := parseOptions_auto_without_support wBright ()
    { name := "brightness", auto := true } [] brightOpt rfl rfl rfl (Or.inr (Or.inl rfl))
  simpa using h.2.2

/-- C2 amended theorem: the catalog display contains exactly the options
whose `IsSettable` flag is true (non-settable options are skipped), but
negotiation resolves a request by name alone — whenever `findOption`
returns an option, settable or not, its coerced value is passed to
`SetOption` as the first write of the run. -/
theorem nonsettable_display_vs_negotiation (σ' : Type) :
    (∀ (opts : List SaneOption) (o : SaneOption),
        o ∈ displayedOptions opts ↔ (o ∈ opts ∧ o.isSettable = true))
    ∧ (∀ (w : World σ') (s : σ') (a : OptionReq) (rest : List OptionReq) (o : SaneOption),
        findOption (w.options s) a.name = .ok o →
          (parseOptions w s (a :: rest)).trace.head?
            = some ⟨o.name, coerceValue o a, exceptOk (w.setOpt s o.name (coerceValue o a))⟩) := by
  constructor
  · intro opts o
    induction opts with
    | nil => simp [displayedOptions]
    | cons p rest ih =>
      by_cases hp : p.isSettable
      · simp only [displayedOptions, hp, if_pos rfl]
        constructor
        · intro hm
          rcases List.mem_cons.mp hm with rfl | hm2
          · exact ⟨by simp, hp⟩
          · obtain ⟨h1, h2⟩ := ih.mp hm2
            exact ⟨by simp [h1], h2⟩
        · rintro ⟨hm, hset⟩
          rcases List.mem_cons.mp hm with rfl | hm2
          · simp
          · simp [ih.mpr ⟨hm2, hset⟩]
      · have hp' : p.isSettable = false := by simpa using hp
        simp only [displayedOptions, hp', Bool.false_eq_true, if_false]
        rw [ih]
        constructor
        · rintro ⟨hm, hset⟩
          exact ⟨by simp [hm], hset⟩
        · rintro ⟨hm, hset⟩
          rcases List.mem_cons.mp hm with rfl | hm2
          · rw [hset] at hp'
            cases hp'
          · exact ⟨hm2, hset⟩
  · intro w s a rest o hfind
    rcases hs : w.setOpt s o.name (coerceValue o a) with e | s2 <;>
      simp [parseOptions, hfind, hs, exceptOk]

/-- A non-settable boolean option used for C2. -/
def lampOpt : SaneOption :=
  { name := "lamp", typ := .tBool, isSettable := false, isActive := true }

/-- A device exposing only the non-settable `lampOpt` and accepting every
write. -/
def wLamp : World Unit :=
  { openDev := fun _ => .ok ()
    devices := .ok []
    options := fun _ => [lampOpt]
    getOpt := fun _ _ => .error "none"
    setOpt := fun s _ _ => .ok s
    readImage := fun _ => .ok () }

/-- C2 counterexample: `lamp` is non-settable, so the display skips it; yet
a request naming it is resolved by `findOption` and its value is written to
the device, and negotiation reports success. -/
theorem nonsettable_negotiated_cex :
    displayedOptions [lampOpt] = []
    ∧ findOption [lampOpt] "lamp" = .ok lampOpt
    ∧ (parseOptions wLamp () [{ name := "lamp" }]).trace
        = [⟨"lamp", SaneValue.vBool false, true⟩]
    ∧ (parseOptions wLamp () [{ name := "lamp" }]).out = .ok :=
  ⟨rfl, rfl, rfl, rfl⟩

/-- Witness for the C2 amended theorem at the `lamp` device. -/
theorem nonsettable_display_vs_negotiation_witness :
    lampOpt ∉ displayedOptions [lampOpt]
    ∧ (parseOptions wLamp () [{ name := "lamp" }]).trace.head?
        = some ⟨"lamp", SaneValue.vBool false, true⟩ := by
  constructor
  · intro hmem
    have h := ((nonsettable_display_vs_negotiation Unit).1 [lampOpt] lampOpt).mp hmem
    exact absurd h.2 (by decide)
  · have h := (nonsettable_display_vs_negotiation Unit).2 wLamp ()
      { name := "lamp" } [] lampOpt rfl
    simpa using h

/-- C3 amended theorem: when a request names an option absent from the
current catalog, `parseOptions` aborts by Go `panic` carrying the
`no such option` lookup error — the error is not returned to the caller —
and no write is issued for that entry or any later one. -/
theorem parseOptions_unknown_option_panics (w : World σ) (s : σ) (a : OptionReq)
    (rest : List OptionReq)
    (habs : ∀ o ∈ w.options s, o.name ≠ a.name) :
    parseOptions w s (a :: rest) = ⟨[], s, .panicked "no such option"⟩ := by
  simp [parseOptions, findOption_absent (w.options s) a.name habs]

/-- A device with an empty option catalog. -/
def wEmptyCat : World Unit :=
  { openDev := fun _ => .ok ()
    devices := .ok []
    options := fun _ => []
    getOpt := fun _ _ => .error "none"
    setOpt := fun s _ _ => .ok s
    readImage := fun _ => .ok () }

/-- C3 counterexample: a request naming an absent option makes
`parseOptions` end in a panic, not in a returned error value. -/
theorem unknown_option_panic_cex :
    (parseOptions wEmptyCat () [{ name := "nonexistent" }]).out
        = .panicked "no such option"
    ∧ (parseOptions wEmptyCat () [{ name := "nonexistent" }]).out
        ≠ .err "no such option"
    ∧ (parseOptions wEmptyCat () [{ name := "nonexistent" }]).trace = [] :=
  ⟨rfl, by decide, rfl⟩

/-- Witness for the C3 amended theorem at the empty-catalog device. -/
theorem parseOptions_unknown_option_panics_witness :
    parseOptions wEmptyCat () [{ name := "nonexistent" }]
      = ⟨[], (), .panicked "no such option"⟩ :=
  parseOptions_unknown_option_panics wEmptyCat () { name := "nonexistent" } []
    (by simp [wEmptyCat])

theorem findOption_congr_erase (l l' : List SaneOption) (n : String)
    (h : l.map eraseConstr = l'.map eraseConstr) :
    (findOption l n).map eraseConstr = (findOption l' n).map eraseConstr := by
  induction l generalizing l' with
  | nil =>
    cases l' with
    | nil => rfl
    | cons p' rest' => simp at h
  | cons p rest ih =>
    cases l' with
    | nil => simp at h
    | cons p' rest' =>
      simp only [List.map_cons, List.cons.injEq] at h
      obtain ⟨hp, ht⟩ := h
      have hn : p.name = p'.name := by
        simpa [eraseConstr] using congrArg SaneOption.name hp
      by_cases hcase : p.name = n
      · have hcase' : p'.name = n := hn ▸ hcase
        simp [findOption, hcase, hcase', Except.map, hp]
      · have hcase' : ¬ p'.name = n := fun hh => hcase (hn ▸ hh)
        simp only [findOption, hcase, hcase', if_false]
        exact ih rest' ht

/-- C1 amended theorem: negotiation never consults an option's constraint.
Two device models whose catalogs agree on everything except the constraint
fields (range and enumerated set), and whose `SetOption` primitives agree,
produce identical negotiation runs — same writes (values included), same
final state, same outcome — for every request list.  Range and quantization
checking is therefore entirely the device's, exercised only at `SetOption`
time, after the write is issued. -/
theorem parseOptions_constraint_blind (w w' : World σ)
    (hOpt : ∀ t, (w.options t).map eraseConstr = (w'.options t).map eraseConstr)
    (hSet : w.setOpt = w'.setOpt) (s : σ) (args : List OptionReq) :
    parseOptions w s args = parseOptions w' s args := by
  induction args generalizing s with
  | nil => rfl
  | cons a rest ih =>
    have hfo := findOption_congr_erase (w.options s) (w'.options s) a.name (hOpt s)
    rcases hf : findOption (w.options s) a.name with e | o <;>
      rcases hf' : findOption (w'.options s) a.name with e' | o'
    · rw [hf, hf'] at hfo
      simp only [Except.map, Except.error.injEq] at hfo
      subst hfo
      simp [parseOptions, hf, hf']
    · rw [hf, hf'] at hfo
      simp [Except.map] at hfo
    · rw [hf, hf'] at hfo
      simp [Except.map] at hfo
    · rw [hf, hf'] at hfo
      simp only [Except.map, Except.ok.injEq] at hfo
      have hname : o.name = o'.name := by
        simpa [eraseConstr] using congrArg SaneOption.name hfo
      have hcv : coerceValue o a = coerceValue o' a := by
        have h1 : o.isAutomatic = o'.isAutomatic := by
          simpa [eraseConstr] using congrArg SaneOption.isAutomatic hfo
        have h2 : o.typ = o'.typ := by
          simpa [eraseConstr] using congrArg SaneOption.typ hfo
        simp only [coerceValue, h1, h2]
      rcases hs : w.setOpt s o.name (coerceValue o a) with e2 | s2
      · have hs2 : w.setOpt s o'.name (coerceValue o' a) = .error e2 := by
          rw [← hname, ← hcv]
          exact hs
        have hs' : w'.setOpt s o'.name (coerceValue o' a) = .error e2 := by
          rw [← hSet]
          exact hs2
        simp [parseOptions, hf, hf', hs, hs2, hs', hname, hcv]
      · have hs2 : w.setOpt s o'.name (coerceValue o' a) = .ok s2 := by
          rw [← hname, ← hcv]
          exact hs
        have hs' : w'.setOpt s o'.name (coerceValue o' a) = .ok s2 := by
          rw [← hSet]
          exact hs2
        simp [parseOptions, hf, hf', hs, hs2, hs', hname, hcv, ih s2]

/-- The integer `resolution` option with range constraint 100..1200 in steps
of 100, as in the spec's end-to-end example. -/
def resOpt : SaneOption :=
  { name := "resolution", typ := .tInt, isSettable := true, isActive := true,
    constrRange := some { min := .vInt 100, max := .vInt 1200, quant := .vInt 100 } }

/-- A device exposing `resOpt` and accepting every write. -/
def wRes : World Unit :=
  { openDev := fun _ => .ok ()
    devices := .ok []
    options := fun _ => [resOpt]
    getOpt := fun _ _ => .error "none"
    setOpt := fun s _ _ => .ok s
    readImage := fun _ => .ok () }

/-- C1 counterexample: 650 is off the quantization grid of `resolution`'s
range 100..1200 step 100, yet negotiation issues the write of 650 to the
device (no validation rejects it first) and reports success when the device
accepts. -/
theorem invalid_value_written_cex :
    onGridB 100 1200 100 650 = false
    ∧ resOpt.constrRange
        = some { min := .vInt 100, max := .vInt 1200, quant := .vInt 100 }
    ∧ (parseOptions wRes () [{ name := "resolution", int := 650 }]).trace
        = [⟨"resolution", SaneValue.vInt 650, true⟩]
    ∧ (parseOptions wRes () [{ name := "resolution", int := 650 }]).out = .ok :=
  ⟨by decide, rfl, rfl, rfl⟩

/-- The same device as `wRes` with the range constraint removed. -/
def wResNoConstr : World Unit :=
  { wRes with options := fun _ => [{ resOpt with constrRange := none }] }

/-- Witness for the C1 amended theorem: dropping the range constraint of
`resolution` leaves the negotiation run of the off-grid value 650
unchanged. -/
theorem parseOptions_constraint_blind_witness :
    parseOptions wRes () [{ name := "resolution", int := 650 }]
      = parseOptions wResNoConstr () [{ name := "resolution", int := 650 }] :=
  parseOptions_constraint_blind wRes wResNoConstr (fun _ => rfl) rfl ()
    [{ name := "resolution", int := 650 }]

theorem closeDev_not_in_matchLoop (w : World σ) (name : String) (ds : List DevInfo) :
    Event.closeDev ∉ (matchLoop w name ds).1 := by
  induction ds with
  | nil => simp [matchLoop]
  | cons d rest ih =>
    by_cases hd : goContains d.name name
    · simp [matchLoop, hd]
    · simpa [matchLoop, hd] using ih

theorem closeDev_not_in_openDevice (w : World σ) (name : String) :
    Event.closeDev ∉ (openDevice w name).1 := by
  rcases h1 : w.openDev name with e | c
  · rcases h2 : w.devices with e2 | ds
    · simp [openDevice, h1, h2]
    · simpa [openDevice, h1, h2] using closeDev_not_in_matchLoop w name ds
  · simp [openDevice, h1]

theorem closeDev_not_in_doScanBody (w : World σ) (fs : FsModel) (s : σ) :
    Event.closeDev ∉ (doScanBody w fs s).1 := by
  unfold doScanBody
  rcases hr : parseOptions w s doScanArgs with ⟨tr, st, po⟩
  dsimp only
  rcases po with _ | e | e
  · rcases hri : w.readImage st with e | u
    · simp [showOptionsEvents, List.mem_append, List.mem_map]
    · cases heo : fs.encodeOk <;> simp [showOptionsEvents, List.mem_append, List.mem_map]
  · simp [showOptionsEvents, List.mem_append, List.mem_map]
  · simp [showOptionsEvents, List.mem_append, List.mem_map]

theorem closeDev_not_in_doScan (w : World σ) (fs : FsModel) (c : Option σ) (fn : String) :
    Event.closeDev ∉ (doScan w fs c fn).1 := by
  unfold doScan
  rcases hpe : pathToEncoder fn with e | enc
  · simp
  · cases hcr : fs.createOk fn
    · simp
    · rcases c with _ | s
      · simp
      · dsimp only
        have hb := closeDev_not_in_doScanBody w fs s
        rcases hbo : doScanBody w fs s with ⟨evs, bo⟩
        rw [hbo] at hb
        try rw [hbo]
        have hb2 : Event.closeDev ∉ evs := by simpa using hb
        rcases bo with _ | e <;> simp [hb2]

/-- C4 amended theorem: across the per-device pipeline, `Conn.Close` is
called exactly once when `doScan` returns normally and exactly zero times
otherwise — a panic anywhere inside `doScan` (encoder resolution, file
creation, negotiation, acquisition, encoding, stream close), or a failed
open followed by the nil dereference, unwinds past the close call, leaving
the session unreleased. -/
theorem perDevice_close_count (w : World σ) (fs : FsModel) (d : DevInfo) (fn : String) :
    (perDevice w fs d fn).1.count Event.closeDev
      = if (perDevice w fs d fn).2 = Outcome.ok then 1 else 0 := by
  have ho0 := closeDev_not_in_openDevice w d.name
  unfold perDevice
  dsimp only
  rcases ho : openDevice w d.name with ⟨oEvs, oc⟩
  rw [ho] at ho0
  simp only [ho]
  have hoc : oEvs.count Event.closeDev = 0 := List.count_eq_zero.mpr (by simpa using ho0)
  rcases oc with e | c
  · have hs0 := closeDev_not_in_doScan w fs (none : Option σ) fn
    rcases hs : doScan w fs (none : Option σ) fn with ⟨sEvs, so⟩
    rw [hs] at hs0
    simp only [hs]
    have hsc : sEvs.count Event.closeDev = 0 := List.count_eq_zero.mpr (by simpa using hs0)
    rcases so with _ | e2 <;> simp [List.count_append, hoc, hsc]
  · have hs0 := closeDev_not_in_doScan w fs (some c) fn
    rcases hs : doScan w fs (some c) fn with ⟨sEvs, so⟩
    rw [hs] at hs0
    simp only [hs]
    have hsc : sEvs.count Event.closeDev = 0 := List.count_eq_zero.mpr (by simpa using hs0)
    rcases so with _ | e2 <;> simp [List.count_append, hoc, hsc]

/-- File system and codec model in which every call succeeds. -/
def fsOk : FsModel :=
  { createOk := fun _ => true, encodeOk := true, closeOk := true }

/-- C4 counterexample: on the empty-catalog device the pipeline fails during
negotiation (unknown `resolution`), `doScan` panics, and `Conn.Close` is
never called — an execution of the per-device pipeline that ends in failure
closes the session zero times, not once. -/
theorem session_left_open_cex :
    (perDevice wEmptyCat fsOk ⟨"dev0", "v", "m", "t"⟩ "1.jpg").2
        = Outcome.panicked "no such option"
    ∧ (perDevice wEmptyCat fsOk ⟨"dev0", "v", "m", "t"⟩ "1.jpg").1.count Event.closeDev
        = 0 :=
  ⟨rfl, rfl⟩

/-- C6 amended theorem: inside `doScan`, an unrecognized destination
extension panics before anything else happens — no file creation, no option
listing or read, no write, no acquisition (the event trace is empty).  The
device session, however, is opened by `listDevices` before `doScan` runs. -/
theorem doScan_unsupported_format_first (w : World σ) (fs : FsModel) (c : Option σ)
    (fn e : String) (h : pathToEncoder fn = .error e) :
    doScan w fs c fn = ([], .panicked e) := by
  unfold doScan
  rw [h]

/-- Witness for the C6 amended theorem: `scan.bmp` panics `doScan`
immediately with an empty trace. -/
theorem doScan_unsupported_format_first_witness :
    doScan wEmptyCat fsOk (some ()) "scan.bmp"
      = ([], .panicked "unrecognized extension") :=
  doScan_unsupported_format_first wEmptyCat fsOk (some ()) "scan.bmp"
    "unrecognized extension" rfl

/-- C6 counterexample: in the program's per-device execution order the
session open (issued by `listDevices`) precedes encoder resolution, so for
destination `scan.bmp` the trace contains an `Open` call even though the
run ends in the `unrecognized extension` panic — a device session is opened
before the encoder-resolution failure. -/
theorem open_precedes_unsupported_cex :
    perDevice wEmptyCat fsOk ⟨"dev0", "v", "m", "t"⟩ "scan.bmp"
      = ([Event.openCall "dev0"], Outcome.panicked "unrecognized extension")
    ∧ Event.openCall "dev0"
        ∈ (perDevice wEmptyCat fsOk ⟨"dev0", "v", "m", "t"⟩ "scan.bmp").1 :=
  ⟨rfl, by decide⟩
